import Mathlib

/-!
Shallow embedding of the compartmental simulation engine in src/src/main.rs.

Modelling conventions:
* A `Bucket` in the source is a reference-counted handle to a shared mutable
  `BucketState`. We model the heap of bucket states as a list `Store` and a
  handle as an index `ℕ` into it: equal indices are aliased handles to
  the same underlying bucket, distinct indices are distinct buckets.
* The `u64` quantity is modelled as an integer `ℤ`, so that non-negativity is
  a provable invariant of the engine rather than a typing triviality. The
  source's `quantity -= amt` aborts (panics) on underflow, which we model by
  `Bucket.subAssign` returning `none`; `none` propagates through a tick like
  the abort of the whole loop.
* `f32` values are modelled as exact rationals, and `f32::round` as exact
  round-to-nearest with ties away from zero (`f32Round`). The narrowing
  `as i32` / `as u64` casts in the update methods are modelled as exact on
  the magnitudes any scenario reaches (far below 2^31), except that the
  `round(..) as u64` cast clamps negative values to zero, modelled by
  `Int.toNat`.
-/

namespace CModel

/-- The `Diffusion` struct: a target bucket handle and an `f32` probability,
modelled as the exact rational value of that `f32`. -/
structure Diffusion where
  target : ℕ
  probability : ℚ
deriving DecidableEq

/-- The `Infection` struct: a target bucket handle and an `f32` probability. -/
structure Infection where
  target : ℕ
  probability : ℚ
deriving DecidableEq

/-- The two implementors of the `Behaviour` trait, as a tagged variant. -/
inductive Behaviour where
  | diffusion (d : Diffusion)
  | infection (i : Infection)
deriving DecidableEq

/-- The target handle stored inside a behaviour. -/
def Behaviour.target : Behaviour → ℕ
  | .diffusion d => d.target
  | .infection i => i.target

/-- `BucketState`: name, quantity and the attached behaviours, in attachment
order. -/
structure BucketState where
  name : String
  quantity : ℤ
  behaviours : List Behaviour
deriving DecidableEq

/-- `BucketState::default()`: empty name, quantity `0`, no behaviours. -/
instance : Inhabited BucketState :=
  ⟨⟨"", 0, []⟩⟩

/-- The heap of shared bucket states; a `Bucket` handle is an index into it. -/
abbrev Store := List BucketState

/-- `Bucket::new(name)`: a fresh default state carrying `name`. -/
def Bucket.new (name : String) : BucketState :=
  ⟨name, 0, []⟩

/-- `Bucket::get()`: read the quantity behind handle `i`. -/
def Bucket.get (s : Store) (i : ℕ) : ℤ :=
  (s.getD i default).quantity

/-- Apply `f` to the quantity stored at index `i` (identity out of range). -/
def modifyQ : Store → ℕ → (ℤ → ℤ) → Store
  | [], _, _ => []
  | st :: rest, 0, f => { st with quantity := f st.quantity } :: rest
  | st :: rest, i + 1, f => st :: modifyQ rest i f

/-- The `AddAssign` impl for `Bucket`: `quantity += amt`. -/
def Bucket.addAssign (s : Store) (i : ℕ) (amt : ℕ) : Store :=
  modifyQ s i (fun q => q + (amt : ℤ))

/-- The `SubAssign` impl for `Bucket`: `quantity -= amt`, aborting the
process (modelled as `none`) when the unsigned subtraction would underflow. -/
def Bucket.subAssign (s : Store) (i : ℕ) (amt : ℕ) : Option Store :=
  if (amt : ℤ) ≤ Bucket.get s i then some (modifyQ s i (fun q => q - (amt : ℤ))) else none

/-- `f32::round`: round to nearest, ties away from zero, on the exact rational
value of the float. -/
def f32Round (q : ℚ) : ℤ :=
  if 0 ≤ q then ⌊q + 1 / 2⌋ else -⌊-q + 1 / 2⌋

/-- `Diffusion::update`'s move amount:
`(self.probability * c as f32).round() as u64 * delta`. -/
def Diffusion.toMove (d : Diffusion) (c : ℤ) (delta : ℕ) : ℕ :=
  (f32Round (d.probability * (c : ℚ))).toNat * delta

/-- `Diffusion::update`: read the source's quantity `c`, compute the move
amount, and when the signed guard `c - to_move > 0` passes, increase the
target then decrease the source by that amount. -/
def Diffusion.update (d : Diffusion) (s : Store) (bucket : ℕ) (delta : ℕ) : Option Store :=
  let c := Bucket.get s bucket
  let toMove := d.toMove c delta
  if c - (toMove : ℤ) > 0 then
    Bucket.subAssign (Bucket.addAssign s d.target toMove) bucket toMove
  else
    some s

/-- `Infection::update`'s move amount, computed from the target's quantity:
`(self.probability * self.target.get() as f32).round() as u64 * delta`. -/
def Infection.toMove (inf : Infection) (t : ℤ) (delta : ℕ) : ℕ :=
  (f32Round (inf.probability * (t : ℚ))).toNat * delta

/-- `Infection::update`: read the target's quantity `t`, compute the move
amount from it, and when the signed guard `t - to_move > 0` passes, increase
the target then decrease the source by that amount. -/
def Infection.update (inf : Infection) (s : Store) (bucket : ℕ) (delta : ℕ) : Option Store :=
  let t := Bucket.get s inf.target
  let toMove := inf.toMove t delta
  if t - (toMove : ℤ) > 0 then
    Bucket.subAssign (Bucket.addAssign s inf.target toMove) bucket toMove
  else
    some s

/-- Dynamic dispatch of `Behaviour::update` over the two implementors. -/
def Behaviour.update : Behaviour → Store → ℕ → ℕ → Option Store
  | .diffusion d, s, b, delta => d.update s b delta
  | .infection i, s, b, delta => i.update s b delta

/-- `Diffusion::new`: box a `Diffusion` as a `Behaviour`. -/
def Diffusion.new (target : ℕ) (probability : ℚ) : Behaviour :=
  .diffusion ⟨target, probability⟩

/-- `Infection::new`: as in the source, this boxes a `Diffusion` (not an
`Infection`) as the returned `Behaviour`. -/
def Infection.new (target : ℕ) (probability : ℚ) : Behaviour :=
  .diffusion ⟨target, probability⟩

/-- `Bucket::update`: clone the attached behaviour list, then invoke each
behaviour in attachment order with this bucket as source. -/
def Bucket.update (s : Store) (i : ℕ) (ticks : ℕ) : Option Store :=
  ((s.getD i default).behaviours).foldlM (fun t bv => Behaviour.update bv t i ticks) s

/-- `Model`: the ordered collection of bucket handles. -/
structure Model where
  buckets : List ℕ
deriving DecidableEq

/-- `Model::add`: append a bucket handle, preserving insertion order. -/
def Model.add (m : Model) (b : ℕ) : Model :=
  ⟨m.buckets ++ [b]⟩

/-- One sweep of the loop body of `Model::run`: update every bucket, in the
model's insertion order. -/
def Model.tick (m : Model) (speed : ℕ) (s : Store) : Option Store :=
  m.buckets.foldlM (fun t b => Bucket.update t b speed) s

/-- Iterate `Model.tick` a given number of times. -/
def Model.runTicks (m : Model) (speed : ℕ) : ℕ → Store → Option Store
  | 0, s => some s
  | n + 1, s => (m.tick speed s).bind (m.runTicks speed n)

/-- The per-tick rendering snapshot: the current quantity of every bucket, in
sequence order (the source stringifies these into table cells). -/
def Model.snapshot (m : Model) (s : Store) : List ℤ :=
  m.buckets.map (fun b => Bucket.get s b)

/-- The loop of `Model::run`, run for `n` iterations with an explicit history
accumulator: each iteration pushes the current snapshot at the front of the
history, truncates it to the 10 most recent entries, then updates every
bucket. Rendering and the real-time pause are external side effects with no
bearing on the state. -/
def Model.runLoop (m : Model) (speed : ℕ) : ℕ → Store → List (List ℤ) → Option (Store × List (List ℤ))
  | 0, s, hist => some (s, hist)
  | n + 1, s, hist =>
    (m.tick speed s).bind (fun s' => m.runLoop speed n s' ((m.snapshot s :: hist).take 10))

/-- Total quantity held across every bucket of the store. -/
def totalQuantity (s : Store) : ℤ :=
  (s.map (fun st => st.quantity)).sum

/-- Every bucket's quantity is non-negative. -/
def AllNonneg (s : Store) : Prop :=
  ∀ q ∈ s.map (fun st => st.quantity), 0 ≤ q

instance (s : Store) : Decidable (AllNonneg s) :=
  inferInstanceAs (Decidable (∀ q ∈ s.map (fun (st : BucketState) => st.quantity), 0 ≤ q))

/-- The behaviour is a `Diffusion` whose target lies inside a store of `n`
buckets. -/
def Behaviour.closedDiffusionIn (n : ℕ) : Behaviour → Prop
  | .diffusion d => d.target < n
  | .infection _ => False

instance (n : ℕ) : (bv : Behaviour) → Decidable (bv.closedDiffusionIn n)
  | .diffusion d => inferInstanceAs (Decidable (d.target < n))
  | .infection _ => inferInstanceAs (Decidable False)

/-- A closed system: every behaviour attached anywhere in the store is a
`Diffusion` targeting a bucket of the store. -/
def Closed (s : Store) : Prop :=
  ∀ bs ∈ s.map (fun st => st.behaviours), ∀ bv ∈ bs, bv.closedDiffusionIn s.length

instance (s : Store) : Decidable (Closed s) :=
  inferInstanceAs
    (Decidable
      (∀ bs ∈ s.map (fun (st : BucketState) => st.behaviours),
        ∀ bv ∈ bs, bv.closedDiffusionIn s.length))

/-! ### Basic lemmas about the store operations -/

theorem get_nil (i : ℕ) : Bucket.get [] i = 0 := rfl

theorem get_cons_zero (st : BucketState) (rest : Store) : Bucket.get (st :: rest) 0 = st.quantity := rfl

theorem get_cons_succ (st : BucketState) (rest : Store) (i : ℕ) :
    Bucket.get (st :: rest) (i + 1) = Bucket.get rest i := rfl

theorem get_of_length_le : ∀ (s : Store) (i : ℕ), s.length ≤ i → Bucket.get s i = 0
  | [], _, _ => rfl
  | _ :: _, 0, h => by simp at h
  | st :: rest, i + 1, h => by
    rw [get_cons_succ]
    exact get_of_length_le rest i (by simpa using h)

theorem modifyQ_of_length_le : ∀ (s : Store) (i : ℕ) (f : ℤ → ℤ),
    s.length ≤ i → modifyQ s i f = s
  | [], _, _, _ => rfl
  | _ :: _, 0, _, h => by simp at h
  | st :: rest, i + 1, f, h => by
    rw [modifyQ]
    rw [modifyQ_of_length_le rest i f (by simpa using h)]

theorem length_modifyQ : ∀ (s : Store) (i : ℕ) (f : ℤ → ℤ),
    (modifyQ s i f).length = s.length
  | [], _, _ => rfl
  | _ :: _, 0, _ => rfl
  | st :: rest, i + 1, f => by
    rw [modifyQ]
    simp [length_modifyQ rest i f]

theorem map_name_modifyQ : ∀ (s : Store) (i : ℕ) (f : ℤ → ℤ),
    (modifyQ s i f).map (fun st => st.name) = s.map (fun st => st.name)
  | [], _, _ => rfl
  | _ :: _, 0, _ => rfl
  | st :: rest, i + 1, f => by
    rw [modifyQ]
    simp [map_name_modifyQ rest i f]

theorem map_behaviours_modifyQ : ∀ (s : Store) (i : ℕ) (f : ℤ → ℤ),
    (modifyQ s i f).map (fun st => st.behaviours) = s.map (fun st => st.behaviours)
  | [], _, _ => rfl
  | _ :: _, 0, _ => rfl
  | st :: rest, i + 1, f => by
    rw [modifyQ]
    simp [map_behaviours_modifyQ rest i f]

theorem get_modifyQ_self : ∀ (s : Store) (i : ℕ) (f : ℤ → ℤ), i < s.length →
    Bucket.get (modifyQ s i f) i = f (Bucket.get s i)
  | [], i, _, h => by simp at h
  | st :: rest, 0, f, _ => rfl
  | st :: rest, i + 1, f, h => by
    rw [modifyQ, get_cons_succ, get_cons_succ]
    exact get_modifyQ_self rest i f (by simpa using h)

theorem get_modifyQ_ne : ∀ (s : Store) (i j : ℕ) (f : ℤ → ℤ), j ≠ i →
    Bucket.get (modifyQ s i f) j = Bucket.get s j
  | [], _, _, _, _ => rfl
  | st :: rest, 0, 0, f, h => absurd rfl h
  | st :: rest, 0, j + 1, f, _ => rfl
  | st :: rest, i + 1, 0, f, _ => rfl
  | st :: rest, i + 1, j + 1, f, h => by
    rw [modifyQ, get_cons_succ, get_cons_succ]
    exact get_modifyQ_ne rest i j f (fun e => h (congrArg (· + 1) e))

theorem totalQuantity_nil : totalQuantity [] = 0 := rfl

theorem totalQuantity_cons (st : BucketState) (rest : Store) :
    totalQuantity (st :: rest) = st.quantity + totalQuantity rest := by
  simp [totalQuantity]

theorem totalQuantity_modifyQ : ∀ (s : Store) (i : ℕ) (f : ℤ → ℤ), i < s.length →
    totalQuantity (modifyQ s i f) = totalQuantity s - Bucket.get s i + f (Bucket.get s i)
  | [], i, _, h => by simp at h
  | st :: rest, 0, f, _ => by
    rw [modifyQ, totalQuantity_cons, totalQuantity_cons, get_cons_zero]
    ring
  | st :: rest, i + 1, f, h => by
    rw [modifyQ, totalQuantity_cons, totalQuantity_cons, get_cons_succ,
      totalQuantity_modifyQ rest i f (by simpa using h)]
    ring

theorem getD_proj {α β : Type} (g : α → β) (d : α) :
    ∀ (s : List α) (i : ℕ), (s.map g).getD i (g d) = g (s.getD i d)
  | [], _ => rfl
  | a :: rest, 0 => rfl
  | a :: rest, i + 1 => by
    simp only [List.map_cons, List.getD_cons_succ]
    exact getD_proj g d rest i

theorem getD_take {α : Type} (d : α) :
    ∀ (l : List α) (m i : ℕ), i < m → (l.take m).getD i d = l.getD i d
  | [], _, _, _ => by simp
  | a :: rest, 0, i, h => by omega
  | a :: rest, m + 1, 0, _ => rfl
  | a :: rest, m + 1, i + 1, h => by
    simp only [List.take_succ_cons, List.getD_cons_succ]
    exact getD_take d rest m i (by omega)

theorem behaviours_getD_eq {s t : Store} (h : t.map (fun st => st.behaviours) = s.map (fun st => st.behaviours))
    (i : ℕ) : (t.getD i default).behaviours = (s.getD i default).behaviours := by
  have ht := getD_proj (fun st => st.behaviours) default t i
  have hs := getD_proj (fun st => st.behaviours) default s i
  simp only at ht hs
  rw [← ht, ← hs, h]

theorem name_getD_eq {s t : Store} (h : t.map (fun st => st.name) = s.map (fun st => st.name))
    (i : ℕ) : (t.getD i default).name = (s.getD i default).name := by
  have ht := getD_proj (fun st => st.name) default t i
  have hs := getD_proj (fun st => st.name) default s i
  simp only at ht hs
  rw [← ht, ← hs, h]

/-! ### Lemmas about `Bucket.addAssign` and `Bucket.subAssign` -/

theorem get_addAssign_self {s : Store} {i : ℕ} (amt : ℕ) (h : i < s.length) :
    Bucket.get (Bucket.addAssign s i amt) i = Bucket.get s i + amt :=
  get_modifyQ_self s i _ h

theorem get_addAssign_ne {s : Store} {i j : ℕ} (amt : ℕ) (h : j ≠ i) :
    Bucket.get (Bucket.addAssign s i amt) j = Bucket.get s j :=
  get_modifyQ_ne s i j _ h

theorem subAssign_eq_some {s : Store} {i : ℕ} {amt : ℕ}
    (h : (amt : ℤ) ≤ Bucket.get s i) :
    Bucket.subAssign s i amt = some (modifyQ s i (fun q => q - (amt : ℤ))) := by
  rw [Bucket.subAssign, if_pos h]

theorem subAssign_eq_none {s : Store} {i : ℕ} {amt : ℕ}
    (h : Bucket.get s i < (amt : ℤ)) : Bucket.subAssign s i amt = none := by
  rw [Bucket.subAssign, if_neg (not_le.mpr h)]

theorem subAssign_some_inv {s s' : Store} {i : ℕ} {amt : ℕ}
    (h : Bucket.subAssign s i amt = some s') :
    (amt : ℤ) ≤ Bucket.get s i ∧ s' = modifyQ s i (fun q => q - (amt : ℤ)) := by
  by_cases hle : (amt : ℤ) ≤ Bucket.get s i
  · rw [subAssign_eq_some hle] at h
    exact ⟨hle, (Option.some_injective _ h).symm⟩
  · rw [subAssign_eq_none (not_le.mp hle)] at h
    exact absurd h (Option.noConfusion)

/-! ### Frame lemmas: a behaviour update only changes the quantities of its
source and target buckets -/

/-- The shape of what one `Behaviour::update` call leaves unchanged. -/
def FrameOk (b t : ℕ) (s s' : Store) : Prop :=
  s'.length = s.length ∧
  s'.map (fun st => st.name) = s.map (fun st => st.name) ∧
  s'.map (fun st => st.behaviours) = s.map (fun st => st.behaviours) ∧
  ∀ j, j ≠ b → j ≠ t → Bucket.get s' j = Bucket.get s j

theorem frameOk_refl (b t : ℕ) (s : Store) : FrameOk b t s s :=
  ⟨rfl, rfl, rfl, fun _ _ _ => rfl⟩

theorem frameOk_modifyQ (b t : ℕ) (s : Store) (f : ℤ → ℤ) :
    FrameOk b t s (modifyQ s b f) :=
  ⟨length_modifyQ s b f, map_name_modifyQ s b f, map_behaviours_modifyQ s b f,
    fun j hb _ => get_modifyQ_ne s b j f hb⟩

theorem frameOk_trans {b t : ℕ} {s₁ s₂ s₃ : Store}
    (h₁ : FrameOk b t s₁ s₂) (h₂ : FrameOk b t s₂ s₃) : FrameOk b t s₁ s₃ :=
  ⟨h₂.1.trans h₁.1, h₂.2.1.trans h₁.2.1, h₂.2.2.1.trans h₁.2.2.1,
    fun j hb ht => (h₂.2.2.2 j hb ht).trans (h₁.2.2.2 j hb ht)⟩

theorem frameOk_addAssign_target (b t : ℕ) (s : Store) (amt : ℕ) :
    FrameOk b t s (Bucket.addAssign s t amt) :=
  ⟨length_modifyQ s t _, map_name_modifyQ s t _, map_behaviours_modifyQ s t _,
    fun j _ ht => get_modifyQ_ne s t j _ ht⟩

theorem diffusion_update_frame {d : Diffusion} {s s' : Store} {b : ℕ} {delta : ℕ}
    (h : d.update s b delta = some s') : FrameOk b d.target s s' := by
  rw [Diffusion.update] at h
  split at h
  · obtain ⟨_, hs'⟩ := subAssign_some_inv h
    subst hs'
    exact frameOk_trans (frameOk_addAssign_target b d.target s _) (frameOk_modifyQ b d.target _ _)
  · cases h
    exact frameOk_refl b d.target s

theorem infection_update_frame {inf : Infection} {s s' : Store} {b : ℕ} {delta : ℕ}
    (h : inf.update s b delta = some s') : FrameOk b inf.target s s' := by
  rw [Infection.update] at h
  split at h
  · obtain ⟨_, hs'⟩ := subAssign_some_inv h
    subst hs'
    exact frameOk_trans (frameOk_addAssign_target b inf.target s _)
      (frameOk_modifyQ b inf.target _ _)
  · cases h
    exact frameOk_refl b inf.target s

theorem behaviour_update_frame {bv : Behaviour} {s s' : Store} {b : ℕ} {delta : ℕ}
    (h : bv.update s b delta = some s') : FrameOk b bv.target s s' := by
  cases bv with
  | diffusion d => exact diffusion_update_frame h
  | infection i => exact infection_update_frame h

/-! ### Non-negativity -/

theorem get_nonneg_of_allNonneg : ∀ {s : Store}, AllNonneg s → ∀ (i : ℕ), 0 ≤ Bucket.get s i := by
  intro s h i
  induction s generalizing i with
  | nil => exact le_refl 0
  | cons st rest ih =>
    cases i with
    | zero =>
      exact h st.quantity (by simp)
    | succ i =>
      rw [get_cons_succ]
      exact ih (fun q hq => h q (by simp at hq ⊢; exact Or.inr hq)) i

theorem allNonneg_modifyQ {s : Store} {i : ℕ} {f : ℤ → ℤ}
    (h : AllNonneg s) (hf : 0 ≤ f (Bucket.get s i)) : AllNonneg (modifyQ s i f) := by
  induction s generalizing i with
  | nil => exact h
  | cons st rest ih =>
    cases i with
    | zero =>
      intro q hq
      simp only [modifyQ, List.map_cons, List.mem_cons] at hq
      rcases hq with hq | hq
      · rw [hq]; exact hf
      · exact h q (by simp; exact Or.inr (by simpa using hq))
    | succ i =>
      intro q hq
      simp only [modifyQ, List.map_cons, List.mem_cons] at hq
      rcases hq with hq | hq
      · exact h q (by simp [hq])
      · exact ih (fun r hr => h r (by simp at hr ⊢; exact Or.inr hr))
          (by rwa [get_cons_succ] at hf) q (by simpa using hq)

theorem allNonneg_addAssign {s : Store} (i : ℕ) (amt : ℕ) (h : AllNonneg s) :
    AllNonneg (Bucket.addAssign s i amt) :=
  allNonneg_modifyQ h (by have := get_nonneg_of_allNonneg h i; omega)

theorem allNonneg_subAssign {s s' : Store} {i : ℕ} {amt : ℕ}
    (h : AllNonneg s) (hsub : Bucket.subAssign s i amt = some s') : AllNonneg s' := by
  obtain ⟨hle, hs'⟩ := subAssign_some_inv hsub
  subst hs'
  exact allNonneg_modifyQ h (by omega)

theorem diffusion_update_allNonneg {d : Diffusion} {s s' : Store} {b : ℕ} {delta : ℕ}
    (h : AllNonneg s) (hu : d.update s b delta = some s') : AllNonneg s' := by
  rw [Diffusion.update] at hu
  split at hu
  · exact allNonneg_subAssign (allNonneg_addAssign _ _ h) hu
  · cases hu; exact h

theorem infection_update_allNonneg {inf : Infection} {s s' : Store} {b : ℕ} {delta : ℕ}
    (h : AllNonneg s) (hu : inf.update s b delta = some s') : AllNonneg s' := by
  rw [Infection.update] at hu
  split at hu
  · exact allNonneg_subAssign (allNonneg_addAssign _ _ h) hu
  · cases hu; exact h

theorem behaviour_update_allNonneg {bv : Behaviour} {s s' : Store} {b : ℕ} {delta : ℕ}
    (h : AllNonneg s) (hu : bv.update s b delta = some s') : AllNonneg s' := by
  cases bv with
  | diffusion d => exact diffusion_update_allNonneg h hu
  | infection i => exact infection_update_allNonneg h hu

/-! ### Generic invariant lemmas for the `Option`-monad folds the engine uses -/

theorem foldlM_inv {α : Type} (P : Store → Prop) (f : Store → α → Option Store)
    (hf : ∀ t a t', P t → f t a = some t' → P t') :
    ∀ (l : List α) (s s' : Store), P s → l.foldlM f s = some s' → P s' := by
  intro l
  induction l with
  | nil =>
    intro s s' hP h
    simp only [List.foldlM_nil] at h
    cases h
    exact hP
  | cons a rest ih =>
    intro s s' hP h
    simp only [List.foldlM_cons] at h
    cases hfa : f s a with
    | none => rw [hfa] at h; exact absurd h (by simp)
    | some t =>
      rw [hfa] at h
      simp only [Option.bind_eq_bind, Option.some_bind] at h
      exact ih t s' (hf s a t hP hfa) h

theorem foldlM_total {α : Type} (P : Store → Prop) (f : Store → α → Option Store) :
    ∀ (l : List α), (∀ t a, a ∈ l → P t → ∃ t', f t a = some t' ∧ P t') →
    ∀ (s : Store), P s → ∃ s', l.foldlM f s = some s' ∧ P s' := by
  intro l
  induction l with
  | nil =>
    intro _ s hP
    exact ⟨s, by simp, hP⟩
  | cons a rest ih =>
    intro hf s hP
    obtain ⟨t, hft, hPt⟩ := hf s a (by simp) hP
    obtain ⟨s', hfold, hPs'⟩ := ih (fun t' a' ha' => hf t' a' (by simp [ha'])) t hPt
    exact ⟨s', by simp [List.foldlM_cons, hft, hfold], hPs'⟩

theorem bucket_update_allNonneg {s s' : Store} {i : ℕ} {ticks : ℕ}
    (h : AllNonneg s) (hu : Bucket.update s i ticks = some s') : AllNonneg s' :=
  foldlM_inv AllNonneg _ (fun _ _ _ hP he => behaviour_update_allNonneg hP he) _ s s' h hu

theorem tick_allNonneg {m : Model} {speed : ℕ} {s s' : Store}
    (h : AllNonneg s) (ht : m.tick speed s = some s') : AllNonneg s' :=
  foldlM_inv AllNonneg _ (fun _ _ _ hP he => bucket_update_allNonneg hP he) _ s s' h ht

theorem runTicks_allNonneg {m : Model} {speed : ℕ} :
    ∀ {n : ℕ} {s s' : Store}, AllNonneg s → m.runTicks speed n s = some s' → AllNonneg s' := by
  intro n
  induction n with
  | zero =>
    intro s s' h hr
    cases hr
    exact h
  | succ k ih =>
    intro s s' h hr
    rw [Model.runTicks] at hr
    cases htick : m.tick speed s with
    | none => rw [htick] at hr; exact absurd hr (by simp)
    | some t =>
      rw [htick] at hr
      simp only [Option.some_bind] at hr
      exact ih (tick_allNonneg h htick) hr

/-! ### Conservation for closed diffusion systems -/

/-- Invariant carried through a closed run: same total quantity, same length,
same attached behaviours as the initial store. -/
def ConservedFrom (s0 t : Store) : Prop :=
  totalQuantity t = totalQuantity s0 ∧ t.length = s0.length ∧
  t.map (fun st => st.behaviours) = s0.map (fun st => st.behaviours)

theorem conservedFrom_refl (s0 : Store) : ConservedFrom s0 s0 := ⟨rfl, rfl, rfl⟩

/-- A `Diffusion` update whose target is a bucket of the store always
succeeds, and moves exactly the same amount out of the source as into the
target: the total quantity is unchanged. -/
theorem diffusion_update_conserves (d : Diffusion) (s : Store) (b : ℕ) (delta : ℕ)
    (ht : d.target < s.length) :
    ∃ s', d.update s b delta = some s' ∧ totalQuantity s' = totalQuantity s ∧
      s'.length = s.length ∧ s'.map (fun st => st.behaviours) = s.map (fun st => st.behaviours) := by
  rw [Diffusion.update]
  split
  case isTrue hguard =>
    set mv := d.toMove (Bucket.get s b) delta with hmv
    have hmvc : (mv : ℤ) < Bucket.get s b := by omega
    have hb : b < s.length := by
      by_contra hble
      rw [get_of_length_le s b (by omega)] at hmvc
      omega
    have hb1 : b < (Bucket.addAssign s d.target mv).length := by
      rw [Bucket.addAssign, length_modifyQ]; exact hb
    have hget1 : (mv : ℤ) ≤ Bucket.get (Bucket.addAssign s d.target mv) b := by
      by_cases hbt : b = d.target
      · subst hbt
        rw [get_addAssign_self mv (by omega)]
        omega
      · rw [get_addAssign_ne mv hbt]
        omega
    refine ⟨_, subAssign_eq_some hget1, ?_, ?_, ?_⟩
    · rw [totalQuantity_modifyQ _ b _ hb1, Bucket.addAssign,
        totalQuantity_modifyQ _ d.target _ ht]
      have : Bucket.get (Bucket.addAssign s d.target mv) b =
          Bucket.get s b + (if b = d.target then (mv : ℤ) else 0) := by
        by_cases hbt : b = d.target
        · subst hbt; rw [get_addAssign_self mv (by omega), if_pos rfl]
        · rw [get_addAssign_ne mv hbt, if_neg hbt]; ring
      rw [Bucket.addAssign] at this
      rw [this]
      split <;> ring
    · rw [length_modifyQ, Bucket.addAssign, length_modifyQ]
    · rw [map_behaviours_modifyQ, Bucket.addAssign, map_behaviours_modifyQ]
  case isFalse =>
    exact ⟨s, rfl, rfl, rfl, rfl⟩

theorem behaviour_update_conserves {s0 : Store} (bv : Behaviour) (t : Store) (b : ℕ)
    (delta : ℕ) (hcl : bv.closedDiffusionIn t.length) (hc : ConservedFrom s0 t) :
    ∃ t', bv.update t b delta = some t' ∧ ConservedFrom s0 t' := by
  cases bv with
  | diffusion d =>
    obtain ⟨t', hu, htot, hlen, hbeh⟩ := diffusion_update_conserves d t b delta hcl
    exact ⟨t', hu, htot.trans hc.1, hlen.trans hc.2.1, hbeh.trans hc.2.2⟩
  | infection i => exact absurd hcl (fun h => h)

/-- Behaviours found in any store conserved from a closed initial store are
closed diffusions. -/
theorem closed_behaviours {s0 t : Store} (hcl : Closed s0) (hc : ConservedFrom s0 t)
    (i : ℕ) : ∀ bv ∈ (t.getD i default).behaviours, bv.closedDiffusionIn t.length := by
  intro bv hbv
  rw [behaviours_getD_eq hc.2.2 i] at hbv
  rw [hc.2.1]
  by_cases hi : i < s0.length
  · refine hcl ((s0.getD i default).behaviours) ?_ bv hbv
    have := getD_proj (fun st => st.behaviours) default s0 i
    simp only at this
    rw [← this]
    have hlen : i < (s0.map (fun st => st.behaviours)).length := by simpa using hi
    rw [List.getD_eq_getElem _ _ hlen]
    exact List.getElem_mem hlen
  · rw [List.getD_eq_default _ _ (by omega)] at hbv
    simp only [Inhabited.default] at hbv
    exact absurd hbv (List.not_mem_nil bv)

theorem bucket_update_conserves {s0 : Store} (hcl : Closed s0) {t : Store} (i : ℕ)
    (ticks : ℕ) (hc : ConservedFrom s0 t) :
    ∃ t', Bucket.update t i ticks = some t' ∧ ConservedFrom s0 t' := by
  rw [Bucket.update]
  refine foldlM_total (ConservedFrom s0) _ _ ?_ t hc
  intro u bv hbv hu
  refine behaviour_update_conserves bv u i ticks ?_ hu
  have := closed_behaviours hcl hc i
  have hlen : u.length = t.length := hu.2.1.trans hc.2.1.symm
  rw [hlen]
  exact this bv hbv

theorem tick_conserves {s0 : Store} (hcl : Closed s0) {t : Store} (m : Model) (speed : ℕ)
    (hc : ConservedFrom s0 t) :
    ∃ t', m.tick speed t = some t' ∧ ConservedFrom s0 t' := by
  rw [Model.tick]
  refine foldlM_total (ConservedFrom s0) _ _ ?_ t hc
  intro u b _ hu
  exact bucket_update_conserves hcl b speed hu

theorem runTicks_conserves {s0 : Store} (hcl : Closed s0) (m : Model) (speed : ℕ) :
    ∀ (n : ℕ) (t : Store), ConservedFrom s0 t →
    ∃ t', m.runTicks speed n t = some t' ∧ ConservedFrom s0 t' := by
  intro n
  induction n with
  | zero => exact fun t hc => ⟨t, rfl, hc⟩
  | succ k ih =>
    intro t hc
    obtain ⟨t1, htick, hc1⟩ := tick_conserves hcl m speed hc
    obtain ⟨t', hrun, hc'⟩ := ih t1 hc1
    exact ⟨t', by rw [Model.runTicks, htick, Option.some_bind, hrun], hc'⟩

/-! ### The bounded rolling history of `Model::run` -/

theorem runLoop_shift (m : Model) (speed : ℕ) :
    ∀ (n : ℕ) (s : Store) (hist : List (List ℤ)) (sf : Store) (h : List (List ℤ)),
    m.runLoop speed n s hist = some (sf, h) →
    ∀ j, n + j < 10 → h.getD (n + j) [] = hist.getD j [] := by
  intro n
  induction n with
  | zero =>
    intro s hist sf h hrun j _
    cases hrun
    simp
  | succ p ih =>
    intro s hist sf h hrun j hj
    rw [Model.runLoop] at hrun
    cases htick : m.tick speed s with
    | none => rw [htick] at hrun; exact absurd hrun (by simp)
    | some s1 =>
      rw [htick] at hrun
      simp only [Option.some_bind] at hrun
      have hstep := ih s1 _ sf h hrun (j + 1) (by omega)
      rw [getD_take _ _ _ _ (by omega), List.getD_cons_succ] at hstep
      have heq : p + 1 + j = p + (j + 1) := by omega
      rw [heq]
      exact hstep

theorem runLoop_length (m : Model) (speed : ℕ) :
    ∀ (n : ℕ) (s : Store) (hist : List (List ℤ)) (sf : Store) (h : List (List ℤ)),
    hist.length ≤ 10 → m.runLoop speed n s hist = some (sf, h) →
    h.length = min 10 (n + hist.length) := by
  intro n
  induction n with
  | zero =>
    intro s hist sf h hle hrun
    cases hrun
    omega
  | succ p ih =>
    intro s hist sf h hle hrun
    rw [Model.runLoop] at hrun
    cases htick : m.tick speed s with
    | none => rw [htick] at hrun; exact absurd hrun (by simp)
    | some s1 =>
      rw [htick] at hrun
      simp only [Option.some_bind] at hrun
      have hlen' : ((m.snapshot s :: hist).take 10).length = min 10 (hist.length + 1) := by
        rw [List.length_take, List.length_cons]
      have := ih s1 _ sf h (by omega) hrun
      rw [this, hlen']
      omega

theorem runLoop_recent (m : Model) (speed : ℕ) :
    ∀ (n : ℕ) (s : Store) (hist : List (List ℤ)) (sf : Store) (h : List (List ℤ)),
    m.runLoop speed n s hist = some (sf, h) →
    ∀ k, k < n → k < 10 →
    ∃ sk, m.runTicks speed (n - 1 - k) s = some sk ∧ h.getD k [] = m.snapshot sk := by
  intro n
  induction n with
  | zero =>
    intro _ _ _ _ _ k hk _
    exact absurd hk (by omega)
  | succ p ih =>
    intro s hist sf h hrun k hk h10
    rw [Model.runLoop] at hrun
    cases htick : m.tick speed s with
    | none => rw [htick] at hrun; exact absurd hrun (by simp)
    | some s1 =>
      rw [htick] at hrun
      simp only [Option.some_bind] at hrun
      by_cases hkp : k < p
      · obtain ⟨sk, hticks, hgetd⟩ := ih s1 _ sf h hrun k hkp h10
        refine ⟨sk, ?_, hgetd⟩
        have heq : p + 1 - 1 - k = (p - 1 - k) + 1 := by omega
        rw [heq, Model.runTicks, htick, Option.some_bind]
        exact hticks
      · have hkp' : k = p := by omega
        subst hkp'
        refine ⟨s, ?_, ?_⟩
        · have heq : k + 1 - 1 - k = 0 := by omega
          rw [heq, Model.runTicks]
        · have hshift := runLoop_shift m speed k s1 _ sf h hrun 0 (by omega)
          rw [getD_take _ _ _ _ (by omega), List.getD_cons_zero] at hshift
          simpa using hshift

/-! ## The claims -/

/-- C1 (amended): for every invocation of `Diffusion::update` with source
bucket `b` and a distinct target bucket `t` of the store, probability `p` and
elapsed ticks `delta`: letting `c` be the source's quantity and
`moved = round(p * c) * delta`, if `c - moved > 0` (checked in a signed
representation) then `t`'s quantity increases by `moved` and `b`'s quantity
decreases by `moved`; otherwise neither bucket's quantity changes that tick.
(When `t` and `b` are the same bucket the two mutations cancel, which is the
counterexample to the unamended claim.) -/
theorem diffusion_update_effect (d : Diffusion) (s : Store) (b delta : ℕ)
    (hne : d.target ≠ b) (htl : d.target < s.length) :
    (Bucket.get s b - (d.toMove (Bucket.get s b) delta : ℤ) > 0 →
      ∃ s', d.update s b delta = some s' ∧
        Bucket.get s' d.target = Bucket.get s d.target + (d.toMove (Bucket.get s b) delta : ℤ) ∧
        Bucket.get s' b = Bucket.get s b - (d.toMove (Bucket.get s b) delta : ℤ)) ∧
    (¬ Bucket.get s b - (d.toMove (Bucket.get s b) delta : ℤ) > 0 →
      d.update s b delta = some s) := by
  constructor
  · intro hguard
    have hbne : b ≠ d.target := fun e => hne e.symm
    have hb : b < s.length := by
      by_contra hc
      rw [get_of_length_le s b (by omega)] at hguard
      omega
    have hb1 : b < (Bucket.addAssign s d.target (d.toMove (Bucket.get s b) delta)).length := by
      rw [Bucket.addAssign, length_modifyQ]
      exact hb
    have hle : ((d.toMove (Bucket.get s b) delta : ℕ) : ℤ) ≤
        Bucket.get (Bucket.addAssign s d.target (d.toMove (Bucket.get s b) delta)) b := by
      rw [get_addAssign_ne _ hbne]
      omega
    refine ⟨modifyQ (Bucket.addAssign s d.target (d.toMove (Bucket.get s b) delta)) b
      (fun q => q - ((d.toMove (Bucket.get s b) delta : ℕ) : ℤ)), ?_, ?_, ?_⟩
    · simp only [Diffusion.update]
      rw [if_pos hguard]
      exact subAssign_eq_some hle
    · rw [get_modifyQ_ne _ _ _ _ hne, get_addAssign_self _ htl]
    · rw [get_modifyQ_self _ _ _ hb1, get_addAssign_ne _ hbne]
  · intro hguard
    simp only [Diffusion.update]
    rw [if_neg hguard]

/-- C1 counterexample: a `Diffusion` whose target handle aliases its own
source (constructible with the public API) passes the guard with a positive
move amount, yet leaves the quantity unchanged instead of increasing the
target's quantity by the move amount. -/
theorem diffusion_alias_counterexample :
    (Bucket.get [⟨"X", 10, []⟩] 0 -
      ((Diffusion.mk 0 (1 / 2)).toMove (Bucket.get [⟨"X", 10, []⟩] 0) 1 : ℤ) > 0) ∧
    (Diffusion.mk 0 (1 / 2)).update [⟨"X", 10, []⟩] 0 1 = some [⟨"X", 10, []⟩] ∧
    Bucket.get [⟨"X", 10, []⟩] 0 ≠
      Bucket.get [⟨"X", 10, []⟩] 0 +
        ((Diffusion.mk 0 (1 / 2)).toMove (Bucket.get [⟨"X", 10, []⟩] 0) 1 : ℤ) := by
  refine ⟨?_, ?_, ?_⟩ <;>
    norm_num [Diffusion.update, Diffusion.toMove, f32Round, Bucket.get, Bucket.addAssign,
      Bucket.subAssign, modifyQ, Int.toNat_ofNat]

/-- C1 witness: the amended theorem applied to a two-bucket store, target
distinct from source, where the guard passes and 5 of 10 units move. -/
theorem diffusion_update_effect_witness :
    (Diffusion.mk 1 (1 / 2)).target ≠ 0 ∧
    (Diffusion.mk 1 (1 / 2)).target < ([⟨"A", 10, []⟩, ⟨"B", 3, []⟩] : Store).length ∧
    ((Bucket.get [⟨"A", 10, []⟩, ⟨"B", 3, []⟩] 0 -
      ((Diffusion.mk 1 (1 / 2)).toMove (Bucket.get [⟨"A", 10, []⟩, ⟨"B", 3, []⟩] 0) 1 : ℤ) > 0 →
      ∃ s', (Diffusion.mk 1 (1 / 2)).update [⟨"A", 10, []⟩, ⟨"B", 3, []⟩] 0 1 = some s' ∧
        Bucket.get s' (Diffusion.mk 1 (1 / 2)).target =
          Bucket.get [⟨"A", 10, []⟩, ⟨"B", 3, []⟩] (Diffusion.mk 1 (1 / 2)).target +
            ((Diffusion.mk 1 (1 / 2)).toMove (Bucket.get [⟨"A", 10, []⟩, ⟨"B", 3, []⟩] 0) 1 : ℤ) ∧
        Bucket.get s' 0 = Bucket.get [⟨"A", 10, []⟩, ⟨"B", 3, []⟩] 0 -
          ((Diffusion.mk 1 (1 / 2)).toMove (Bucket.get [⟨"A", 10, []⟩, ⟨"B", 3, []⟩] 0) 1 : ℤ)) ∧
    (¬ Bucket.get [⟨"A", 10, []⟩, ⟨"B", 3, []⟩] 0 -
      ((Diffusion.mk 1 (1 / 2)).toMove (Bucket.get [⟨"A", 10, []⟩, ⟨"B", 3, []⟩] 0) 1 : ℤ) > 0 →
      (Diffusion.mk 1 (1 / 2)).update [⟨"A", 10, []⟩, ⟨"B", 3, []⟩] 0 1 =
        some [⟨"A", 10, []⟩, ⟨"B", 3, []⟩])) :=
  ⟨by decide, by decide,
    diffusion_update_effect (Diffusion.mk 1 (1 / 2)) [⟨"A", 10, []⟩, ⟨"B", 3, []⟩] 0 1
      (by decide) (by decide)⟩

/-- C2: `Infection::new` returns a boxed `Diffusion`, so the behaviour it
builds is the very behaviour `Diffusion::new` builds, and its runtime effect
on every store, source bucket and tick count is identical. -/
theorem infection_new_is_diffusion_new :
    ∀ (t : ℕ) (p : ℚ), Infection.new t p = Diffusion.new t p ∧
      ∀ (s : Store) (b delta : ℕ),
        Behaviour.update (Infection.new t p) s b delta =
          Behaviour.update (Diffusion.new t p) s b delta :=
  fun _ _ => ⟨rfl, fun _ _ _ => rfl⟩

/-- C6: when the source's quantity exactly equals the computed move amount,
the strict guard fails and `Diffusion::update` changes nothing. -/
theorem guard_skips_exact_move (d : Diffusion) (s : Store) (b delta : ℕ)
    (h : Bucket.get s b = (d.toMove (Bucket.get s b) delta : ℤ)) :
    d.update s b delta = some s := by
  simp only [Diffusion.update]
  rw [if_neg (by omega)]

/-- C6 witness: quantity 10, probability one half, two elapsed ticks: the
computed move is exactly 10 and the bucket is left untouched. -/
theorem guard_skips_exact_move_witness :
    Bucket.get [⟨"A", 10, []⟩, ⟨"B", 0, []⟩] 0 =
      ((Diffusion.mk 1 (1 / 2)).toMove (Bucket.get [⟨"A", 10, []⟩, ⟨"B", 0, []⟩] 0) 2 : ℤ) ∧
    (Diffusion.mk 1 (1 / 2)).update [⟨"A", 10, []⟩, ⟨"B", 0, []⟩] 0 2 =
      some [⟨"A", 10, []⟩, ⟨"B", 0, []⟩] := by
  have h : Bucket.get [⟨"A", 10, []⟩, ⟨"B", 0, []⟩] 0 =
      ((Diffusion.mk 1 (1 / 2)).toMove (Bucket.get [⟨"A", 10, []⟩, ⟨"B", 0, []⟩] 0) 2 : ℤ) := by
    norm_num [Diffusion.toMove, f32Round, Bucket.get, Int.toNat_ofNat]
  exact ⟨h, guard_skips_exact_move (Diffusion.mk 1 (1 / 2)) [⟨"A", 10, []⟩, ⟨"B", 0, []⟩] 0 2 h⟩

/-- C8: decreasing a bucket by more than its current quantity is fatal: the
subtraction aborts (models the unsigned-underflow panic), the mutation never
commits, and in particular no saturated or clamped state is produced. -/
theorem decrease_underflow_aborts (s : Store) (i amt : ℕ)
    (h : Bucket.get s i < (amt : ℤ)) :
    Bucket.subAssign s i amt = none ∧ ∀ s', Bucket.subAssign s i amt ≠ some s' := by
  refine ⟨subAssign_eq_none h, fun s' he => ?_⟩
  rw [subAssign_eq_none h] at he
  exact Option.noConfusion he

/-- C8 witness: subtracting 5 from a bucket holding 3 aborts. -/
theorem decrease_underflow_aborts_witness :
    Bucket.get [⟨"A", 3, []⟩] 0 < ((5 : ℕ) : ℤ) ∧
    (Bucket.subAssign [⟨"A", 3, []⟩] 0 5 = none ∧
      ∀ s', Bucket.subAssign [⟨"A", 3, []⟩] 0 5 ≠ some s') :=
  ⟨by decide, decrease_underflow_aborts [⟨"A", 3, []⟩] 0 5 (by decide)⟩

/-- C3: quantities are never observed negative: starting from any store of
non-negative quantities, every store produced by a behaviour update, by a
bucket update, or by any number of engine ticks over any collection of
buckets with any attached Diffusion/Infection behaviours again has every
quantity non-negative. -/
theorem no_negative_quantities :
    (∀ (bv : Behaviour) (s s' : Store) (b delta : ℕ),
      AllNonneg s → bv.update s b delta = some s' → AllNonneg s') ∧
    (∀ (s s' : Store) (i ticks : ℕ),
      AllNonneg s → Bucket.update s i ticks = some s' → AllNonneg s') ∧
    ∀ (m : Model) (speed n : ℕ) (s s' : Store),
      AllNonneg s → m.runTicks speed n s = some s' → AllNonneg s' :=
  ⟨fun _ _ _ _ _ h hu => behaviour_update_allNonneg h hu,
    fun _ _ _ _ h hu => bucket_update_allNonneg h hu,
    fun _ _ _ _ _ h hr => runTicks_allNonneg h hr⟩

/-- C3 witness: one tick over a susceptible/infected pair with a one-half
diffusion keeps every quantity non-negative. -/
theorem no_negative_quantities_witness :
    AllNonneg [⟨"S", 10, [.diffusion ⟨1, 1 / 2⟩]⟩, ⟨"I", 0, []⟩] ∧
    (Model.mk [0]).runTicks 1 1 [⟨"S", 10, [.diffusion ⟨1, 1 / 2⟩]⟩, ⟨"I", 0, []⟩] =
      some [⟨"S", 5, [.diffusion ⟨1, 1 / 2⟩]⟩, ⟨"I", 5, []⟩] ∧
    AllNonneg [⟨"S", 5, [.diffusion ⟨1, 1 / 2⟩]⟩, ⟨"I", 5, []⟩] := by
  have hrun : (Model.mk [0]).runTicks 1 1 [⟨"S", 10, [.diffusion ⟨1, 1 / 2⟩]⟩, ⟨"I", 0, []⟩] =
      some [⟨"S", 5, [.diffusion ⟨1, 1 / 2⟩]⟩, ⟨"I", 5, []⟩] := by
    norm_num [Model.runTicks, Model.tick, Bucket.update, List.foldlM_cons, List.foldlM_nil,
      Behaviour.update, Diffusion.update, Diffusion.toMove, f32Round, Bucket.get,
      Bucket.addAssign, Bucket.subAssign, modifyQ, Int.toNat_ofNat]
  exact ⟨by decide, hrun,
    no_negative_quantities.2.2 (Model.mk [0]) 1 1 _ _ (by decide) hrun⟩

/-- C4: in a closed system (every attached behaviour is a `Diffusion`
targeting a bucket of the store), each Diffusion update succeeds and moves
exactly as much out of the source as into the target, and the total quantity
over the store is invariant across any number of ticks by any model. -/
theorem closed_system_conservation :
    (∀ (d : Diffusion) (s : Store) (b delta : ℕ), d.target < s.length →
      ∃ s', d.update s b delta = some s' ∧ totalQuantity s' = totalQuantity s) ∧
    ∀ (m : Model) (speed n : ℕ) (s : Store), Closed s →
      ∃ s', m.runTicks speed n s = some s' ∧ totalQuantity s' = totalQuantity s := by
  constructor
  · intro d s b delta ht
    obtain ⟨s', hu, htot, -, -⟩ := diffusion_update_conserves d s b delta ht
    exact ⟨s', hu, htot⟩
  · intro m speed n s hcl
    obtain ⟨s', hr, hc⟩ := runTicks_conserves hcl m speed n s (conservedFrom_refl s)
    exact ⟨s', hr, hc.1⟩

/-- C4 witness: a two-bucket closed system with a one-half diffusion keeps
total quantity 10 across three ticks, and one update conserves the total. -/
theorem closed_system_conservation_witness :
    (Diffusion.mk 1 (1 / 2)).target < ([⟨"A", 10, []⟩, ⟨"B", 0, []⟩] : Store).length ∧
    Closed [⟨"A", 10, [.diffusion ⟨1, 1 / 2⟩]⟩, ⟨"B", 0, []⟩] ∧
    (∃ s', (Diffusion.mk 1 (1 / 2)).update [⟨"A", 10, []⟩, ⟨"B", 0, []⟩] 0 1 = some s' ∧
      totalQuantity s' = totalQuantity [⟨"A", 10, []⟩, ⟨"B", 0, []⟩]) ∧
    ∃ s', (Model.mk [0, 1]).runTicks 1 3 [⟨"A", 10, [.diffusion ⟨1, 1 / 2⟩]⟩, ⟨"B", 0, []⟩] =
        some s' ∧
      totalQuantity s' = totalQuantity [⟨"A", 10, [.diffusion ⟨1, 1 / 2⟩]⟩, ⟨"B", 0, []⟩] :=
  ⟨by decide, by decide,
    closed_system_conservation.1 (Diffusion.mk 1 (1 / 2)) [⟨"A", 10, []⟩, ⟨"B", 0, []⟩] 0 1
      (by decide),
    closed_system_conservation.2 (Model.mk [0, 1]) 1 3
      [⟨"A", 10, [.diffusion ⟨1, 1 / 2⟩]⟩, ⟨"B", 0, []⟩] (by decide)⟩

/-- C5: a sweep processes buckets in the model's insertion order — for
buckets `a`, `b`, `c` in that order a tick is exactly "update `a`, then `b`
on its result, then `c`" — and within a bucket the behaviours run in
attachment order (head first, then the rest on the head's result). In the
concrete A/B/C instance with a half-diffusion from A to B and from B to C,
one tick yields 50/25/25: B's behaviour reads B's already-updated quantity
50, not its initial 0. -/
theorem tick_processing_order :
    (∀ (a b c speed : ℕ) (s : Store),
      (Model.mk [a, b, c]).tick speed s =
        (Bucket.update s a speed).bind (fun s1 =>
          (Bucket.update s1 b speed).bind (fun s2 => Bucket.update s2 c speed))) ∧
    (∀ (bv : Behaviour) (rest : List Behaviour) (s : Store) (i ticks : ℕ),
      ((bv :: rest).foldlM (fun t x => Behaviour.update x t i ticks) s : Option Store) =
        (bv.update s i ticks).bind
          (fun s' => rest.foldlM (fun t x => Behaviour.update x t i ticks) s')) ∧
    (Model.mk [0, 1, 2]).tick 1
        [⟨"A", 100, [.diffusion ⟨1, 1 / 2⟩]⟩, ⟨"B", 0, [.diffusion ⟨2, 1 / 2⟩]⟩, ⟨"C", 0, []⟩] =
      some [⟨"A", 50, [.diffusion ⟨1, 1 / 2⟩]⟩, ⟨"B", 25, [.diffusion ⟨2, 1 / 2⟩]⟩,
        ⟨"C", 25, []⟩] := by
  refine ⟨?_, fun _ _ _ _ _ => rfl, ?_⟩
  · intro a b c speed s
    simp only [Model.tick, List.foldlM_cons, List.foldlM_nil]
    cases Bucket.update s a speed with
    | none => simp
    | some s1 =>
      simp only [Option.bind_eq_bind, Option.some_bind]
      cases Bucket.update s1 b speed with
      | none => simp
      | some s2 => simp
  · norm_num [Model.tick, Bucket.update, List.foldlM_cons, List.foldlM_nil,
      Behaviour.update, Diffusion.update, Diffusion.toMove, f32Round, Bucket.get,
      Bucket.addAssign, Bucket.subAssign, modifyQ, Int.toNat_ofNat]

/-- C7 (amended): `Infection::update` computes its move amount from the
target bucket's quantity `t` as `moved = round(p * t) * delta` and checks
`t - moved > 0` in a signed representation; when the guard passes, the
target is a distinct bucket of the store, and the source holds at least
`moved` (otherwise the decrease aborts the process), the target's quantity
increases by `moved` and the source's decreases by `moved`; when the guard
fails nothing changes. -/
theorem infection_update_effect (inf : Infection) (s : Store) (b delta : ℕ)
    (hne : inf.target ≠ b) (htl : inf.target < s.length) :
    (Bucket.get s inf.target - (inf.toMove (Bucket.get s inf.target) delta : ℤ) > 0 →
      (inf.toMove (Bucket.get s inf.target) delta : ℤ) ≤ Bucket.get s b →
      ∃ s', inf.update s b delta = some s' ∧
        Bucket.get s' inf.target =
          Bucket.get s inf.target + (inf.toMove (Bucket.get s inf.target) delta : ℤ) ∧
        Bucket.get s' b = Bucket.get s b - (inf.toMove (Bucket.get s inf.target) delta : ℤ)) ∧
    (¬ Bucket.get s inf.target - (inf.toMove (Bucket.get s inf.target) delta : ℤ) > 0 →
      inf.update s b delta = some s) := by
  constructor
  · intro hguard hsrc
    have hbne : b ≠ inf.target := fun e => hne e.symm
    have hle : ((inf.toMove (Bucket.get s inf.target) delta : ℕ) : ℤ) ≤
        Bucket.get (Bucket.addAssign s inf.target (inf.toMove (Bucket.get s inf.target) delta))
          b := by
      rw [get_addAssign_ne _ hbne]
      exact hsrc
    refine ⟨modifyQ (Bucket.addAssign s inf.target (inf.toMove (Bucket.get s inf.target) delta))
      b (fun q => q - ((inf.toMove (Bucket.get s inf.target) delta : ℕ) : ℤ)), ?_, ?_, ?_⟩
    · simp only [Infection.update]
      rw [if_pos hguard]
      exact subAssign_eq_some hle
    · rw [get_modifyQ_ne _ _ _ _ hne, get_addAssign_self _ htl]
    · by_cases hb : b < s.length
      · have hb1 : b <
            (Bucket.addAssign s inf.target (inf.toMove (Bucket.get s inf.target) delta)).length := by
          rw [Bucket.addAssign, length_modifyQ]
          exact hb
        rw [get_modifyQ_self _ _ _ hb1, get_addAssign_ne _ hbne]
      · have hz : Bucket.get s b = 0 := get_of_length_le s b (by omega)
        rw [modifyQ_of_length_le _ _ _
            (by rw [Bucket.addAssign, length_modifyQ]; omega),
          get_addAssign_ne _ hbne]
        omega
  · intro hguard
    simp only [Infection.update]
    rw [if_neg hguard]

/-- C7 counterexample: with source quantity 0 and target quantity 100, the
guard on the target's quantity passes, but instead of the quantities
changing, the decrease of the source underflows and the update aborts. -/
theorem infection_underflow_counterexample :
    (Bucket.get [⟨"S", 0, []⟩, ⟨"I", 100, []⟩] 1 -
      ((Infection.mk 1 (1 / 2)).toMove (Bucket.get [⟨"S", 0, []⟩, ⟨"I", 100, []⟩] 1) 1 : ℤ) >
      0) ∧
    (Infection.mk 1 (1 / 2)).update [⟨"S", 0, []⟩, ⟨"I", 100, []⟩] 0 1 = none := by
  constructor <;>
    norm_num [Infection.update, Infection.toMove, f32Round, Bucket.get, Bucket.addAssign,
      Bucket.subAssign, modifyQ, Int.toNat_ofNat]

/-- C7 witness: the amended theorem applied with target quantity 40 and
source quantity 100: 20 units move from the source to the target. -/
theorem infection_update_effect_witness :
    (Infection.mk 1 (1 / 2)).target ≠ 0 ∧
    (Infection.mk 1 (1 / 2)).target < ([⟨"S", 100, []⟩, ⟨"I", 40, []⟩] : Store).length ∧
    ((Bucket.get [⟨"S", 100, []⟩, ⟨"I", 40, []⟩] (Infection.mk 1 (1 / 2)).target -
      ((Infection.mk 1 (1 / 2)).toMove
        (Bucket.get [⟨"S", 100, []⟩, ⟨"I", 40, []⟩] (Infection.mk 1 (1 / 2)).target) 1 : ℤ) > 0 →
      ((Infection.mk 1 (1 / 2)).toMove
        (Bucket.get [⟨"S", 100, []⟩, ⟨"I", 40, []⟩] (Infection.mk 1 (1 / 2)).target) 1 : ℤ) ≤
        Bucket.get [⟨"S", 100, []⟩, ⟨"I", 40, []⟩] 0 →
      ∃ s', (Infection.mk 1 (1 / 2)).update [⟨"S", 100, []⟩, ⟨"I", 40, []⟩] 0 1 = some s' ∧
        Bucket.get s' (Infection.mk 1 (1 / 2)).target =
          Bucket.get [⟨"S", 100, []⟩, ⟨"I", 40, []⟩] (Infection.mk 1 (1 / 2)).target +
            ((Infection.mk 1 (1 / 2)).toMove
              (Bucket.get [⟨"S", 100, []⟩, ⟨"I", 40, []⟩] (Infection.mk 1 (1 / 2)).target) 1 : ℤ) ∧
        Bucket.get s' 0 = Bucket.get [⟨"S", 100, []⟩, ⟨"I", 40, []⟩] 0 -
          ((Infection.mk 1 (1 / 2)).toMove
            (Bucket.get [⟨"S", 100, []⟩, ⟨"I", 40, []⟩] (Infection.mk 1 (1 / 2)).target) 1 : ℤ)) ∧
    (¬ Bucket.get [⟨"S", 100, []⟩, ⟨"I", 40, []⟩] (Infection.mk 1 (1 / 2)).target -
      ((Infection.mk 1 (1 / 2)).toMove
        (Bucket.get [⟨"S", 100, []⟩, ⟨"I", 40, []⟩] (Infection.mk 1 (1 / 2)).target) 1 : ℤ) > 0 →
      (Infection.mk 1 (1 / 2)).update [⟨"S", 100, []⟩, ⟨"I", 40, []⟩] 0 1 =
        some [⟨"S", 100, []⟩, ⟨"I", 40, []⟩])) :=
  ⟨by decide, by decide,
    infection_update_effect (Infection.mk 1 (1 / 2)) [⟨"S", 100, []⟩, ⟨"I", 40, []⟩] 0 1
      (by decide) (by decide)⟩

/-- C9: after more than 10 iterations of the rendering loop started with an
empty history, the history holds exactly 10 snapshots, most recent first:
entry `k` is the snapshot of the state reached after `n - 1 - k` ticks. -/
theorem bounded_history (m : Model) (speed n : ℕ) (s0 sf : Store) (h : List (List ℤ))
    (hn : 10 < n) (hrun : m.runLoop speed n s0 [] = some (sf, h)) :
    h.length = 10 ∧
    ∀ k, k < 10 →
      ∃ sk, m.runTicks speed (n - 1 - k) s0 = some sk ∧ h.getD k [] = m.snapshot sk := by
  constructor
  · have hlen := runLoop_length m speed n s0 [] sf h (by simp) hrun
    simp only [List.length_nil] at hlen
    omega
  · intro k hk
    exact runLoop_recent m speed n s0 [] sf h hrun k (by omega) hk

/-- C9 witness: eleven iterations over a single inert bucket leave exactly
ten snapshots, all equal to the constant snapshot of that bucket. -/
theorem bounded_history_witness :
    10 < 11 ∧
    (Model.mk [0]).runLoop 1 11 [⟨"", 0, []⟩] [] =
      some ([⟨"", 0, []⟩], List.replicate 10 [(0 : ℤ)]) ∧
    ((List.replicate 10 [(0 : ℤ)]).length = 10 ∧
      ∀ k, k < 10 → ∃ sk, (Model.mk [0]).runTicks 1 (11 - 1 - k) [⟨"", 0, []⟩] = some sk ∧
        (List.replicate 10 [(0 : ℤ)]).getD k [] = (Model.mk [0]).snapshot sk) :=
  ⟨by decide, by decide,
    bounded_history (Model.mk [0]) 1 11 [⟨"", 0, []⟩] [⟨"", 0, []⟩]
      (List.replicate 10 [(0 : ℤ)]) (by decide) (by decide)⟩

/-- C10: a single behaviour update touches only quantities, and only those of
its source and target: the store keeps its length, every bucket keeps its
name and attached behaviours, and every bucket other than the update's source
and target keeps its quantity. -/
theorem behaviour_update_frame_effect (bv : Behaviour) (s s' : Store) (b delta : ℕ)
    (h : bv.update s b delta = some s') :
    s'.length = s.length ∧
    s'.map (fun st => st.name) = s.map (fun st => st.name) ∧
    s'.map (fun st => st.behaviours) = s.map (fun st => st.behaviours) ∧
    ∀ j, j ≠ b → j ≠ bv.target → Bucket.get s' j = Bucket.get s j :=
  behaviour_update_frame h

/-- C10 witness: a diffusion from bucket 0 to bucket 1 in a three-bucket
store leaves bucket 2's quantity and every name and behaviour list intact. -/
theorem behaviour_update_frame_effect_witness :
    (Behaviour.diffusion ⟨1, 1 / 2⟩).update [⟨"A", 10, []⟩, ⟨"B", 0, []⟩, ⟨"C", 7, []⟩] 0 1 =
      some [⟨"A", 5, []⟩, ⟨"B", 5, []⟩, ⟨"C", 7, []⟩] ∧
    (([⟨"A", 5, []⟩, ⟨"B", 5, []⟩, ⟨"C", 7, []⟩] : Store).length =
        ([⟨"A", 10, []⟩, ⟨"B", 0, []⟩, ⟨"C", 7, []⟩] : Store).length ∧
      ([⟨"A", 5, []⟩, ⟨"B", 5, []⟩, ⟨"C", 7, []⟩] : Store).map (fun st => st.name) =
        ([⟨"A", 10, []⟩, ⟨"B", 0, []⟩, ⟨"C", 7, []⟩] : Store).map (fun st => st.name) ∧
      ([⟨"A", 5, []⟩, ⟨"B", 5, []⟩, ⟨"C", 7, []⟩] : Store).map (fun st => st.behaviours) =
        ([⟨"A", 10, []⟩, ⟨"B", 0, []⟩, ⟨"C", 7, []⟩] : Store).map (fun st => st.behaviours) ∧
      ∀ j, j ≠ 0 → j ≠ (Behaviour.diffusion ⟨1, 1 / 2⟩).target →
        Bucket.get [⟨"A", 5, []⟩, ⟨"B", 5, []⟩, ⟨"C", 7, []⟩] j =
          Bucket.get [⟨"A", 10, []⟩, ⟨"B", 0, []⟩, ⟨"C", 7, []⟩] j) := by
  have hu : (Behaviour.diffusion ⟨1, 1 / 2⟩).update
      [⟨"A", 10, []⟩, ⟨"B", 0, []⟩, ⟨"C", 7, []⟩] 0 1 =
      some [⟨"A", 5, []⟩, ⟨"B", 5, []⟩, ⟨"C", 7, []⟩] := by
    norm_num [Behaviour.update, Diffusion.update, Diffusion.toMove, f32Round, Bucket.get,
      Bucket.addAssign, Bucket.subAssign, modifyQ, Int.toNat_ofNat]
  exact ⟨hu, behaviour_update_frame_effect (Behaviour.diffusion ⟨1, 1 / 2⟩)
    [⟨"A", 10, []⟩, ⟨"B", 0, []⟩, ⟨"C", 7, []⟩] [⟨"A", 5, []⟩, ⟨"B", 5, []⟩, ⟨"C", 7, []⟩] 0 1 hu⟩

end CModel
